import Mathlib

/-!
Verification development for the NIR pass `nir_lower_locals_to_regs`
(src/compiler/nir/nir_lower_locals_to_regs.c).

The pass replaces loads/stores of function-local variables, addressed through
dereference chains (array indexing, struct-field selection), by moves to/from
virtual registers.  We give a shallow embedding of the data model and of the
functions `hash_deref`/`derefs_equal`, `get_reg_for_deref`,
`get_deref_reg_src`, `lower_locals_to_regs_block` and
`nir_lower_locals_to_regs_impl`, and prove the stated properties about them.
-/

namespace NirLowerLocals

mutual
/-- GLSL types as far as this pass inspects them: vectors/scalars (a scalar is
a 1-component vector), arrays with a declared length, and structs with a list
of field types (`GlslFields`, an inlined list so that equality stays
derivable).  `glsl_get_length` returns the array length resp. the field
count. -/
inductive GlslType where
  | vec (components : Nat) (bitSize : Nat)
  | array (elem : GlslType) (length : Nat)
  | strct (fields : GlslFields)
deriving DecidableEq
inductive GlslFields where
  | nil
  | cons (head : GlslType) (tail : GlslFields)
deriving DecidableEq
end

/-- Number of fields of a struct type. -/
def GlslFields.length : GlslFields → Nat
  | .nil => 0
  | .cons _ tl => tl.length + 1

/-- The type of field `i` of a struct type, if any. -/
def GlslFields.get? : GlslFields → Nat → Option GlslType
  | .nil, _ => none
  | .cons hd _, 0 => some hd
  | .cons _ tl, n + 1 => tl.get? n

/-- Storage mode of a variable (`deref->mode`); the pass only rewrites
`nir_var_local` accesses. -/
inductive Mode where
  | local
  | other
deriving DecidableEq

/-- A declared variable.  `id` stands for the object identity that the C code
compares by pointer (`a->var == b->var`); `const_init` records whether
`var->constant_initializer` is non-NULL. -/
structure Var where
  id : Nat
  vtype : GlslType
  mode : Mode
  const_init : Bool
deriving DecidableEq

/-- SSA value expressions, as produced by the builder helpers used in
`get_deref_reg_src`: `nir_imm_int`, `nir_iadd`, `nir_imul`, plus opaque SSA
values (`ssaVar`) coming from elsewhere in the function. -/
inductive Expr where
  | imm (v : Nat)
  | ssaVar (id : Nat)
  | iadd (a b : Expr)
  | imul (a b : Expr)
deriving DecidableEq

/-- Evaluation of an SSA expression under an environment for the opaque
values. -/
def evalExpr (env : Nat → Nat) : Expr → Nat
  | .imm v => v
  | .ssaVar i => env i
  | .iadd a b => evalExpr env a + evalExpr env b
  | .imul a b => evalExpr env a * evalExpr env b

/-- An array-index operand (`d->arr.index`).  `const v` is the case where
`nir_src_as_const_value` recognizes the operand as the compile-time constant
`v`; `dyn e` is a non-constant (dynamic) index given by the SSA value `e`. -/
inductive Index where
  | const (v : Nat)
  | dyn (e : Expr)
deriving DecidableEq

/-- The SSA value of an index operand (`nir_ssa_for_src`): a constant operand
is the SSA definition of that constant. -/
def Index.toExpr : Index → Expr
  | .const v => .imm v
  | .dyn e => e

/-- A dereference chain, leaf node outward: the root is a variable, and each
further node indexes an array or selects a struct field of its parent.  In the
C code these are `nir_deref_instr`s linked by `nir_deref_instr_parent`; a
chain is well-formed exactly when it terminates at a `nir_deref_type_var`
node, which this inductive guarantees.  `parentLength` records
`glsl_get_length(nir_deref_instr_parent(d)->type)`, the element count of the
array being indexed, which the deref node's stored parent type provides. -/
inductive Deref where
  | var (v : Var)
  | array (parent : Deref) (index : Index) (parentLength : Nat)
  | strct (parent : Deref) (fieldIndex : Nat)
deriving DecidableEq

/-- `nir_deref_instr_get_variable`: walk to the chain's root variable. -/
def nir_deref_instr_get_variable : Deref → Var
  | .var v => v
  | .array p _ _ => nir_deref_instr_get_variable p
  | .strct p _ => nir_deref_instr_get_variable p

/-- `deref->mode`: the storage mode of the chain (that of its root
variable). -/
def derefMode (d : Deref) : Mode :=
  (nir_deref_instr_get_variable d).mode

/-- `derefs_equal`: equality of two chains for the purpose of register
sharing.  Walks both chains in lockstep from the leaf toward the root;
array-index nodes are skipped ("Do nothing") so the concrete indices never
matter, struct nodes compare their field index, and root variable nodes
compare variable identity. -/
def derefs_equal : Deref → Deref → Bool
  | .var a, .var b => a == b
  | .array pa _ _, .array pb _ _ => derefs_equal pa pb
  | .strct pa fa, .strct pb fb => fa == fb && derefs_equal pa pb
  | _, _ => false

/-- `glsl_type_is_vector_or_scalar`. -/
def glsl_type_is_vector_or_scalar : GlslType → Bool
  | .vec _ _ => true
  | _ => false

/-- `glsl_get_length` on the types this pass meets. -/
def glsl_get_length : GlslType → Nat
  | .vec _ _ => 0
  | .array _ n => n
  | .strct fs => fs.length

/-- `deref->type`: the type a chain resolves to, obtained by walking the root
variable's declared type through the chain.  `none` means the chain is not
well-typed (which the NIR builder rules out for real instructions). -/
def derefType : Deref → Option GlslType
  | .var v => some v.vtype
  | .array p _ len =>
    match derefType p with
    | some (.array elem l) => if l = len then some elem else none
    | _ => none
  | .strct p f =>
    match derefType p with
    | some (.strct fields) => fields.get? f
    | _ => none

/-- A virtual register, as allocated by `nir_local_reg_create`.  `index` is
the allocation identity (the position in the function's register list), the
other fields are the ones `get_reg_for_deref` fills in. -/
structure Register where
  index : Nat
  num_components : Nat
  num_array_elems : Nat
  bit_size : Nat
deriving DecidableEq

/-- The per-function lowering state: the deref-to-register hash table
(`state->regs_table`, keyed by `derefs_equal`) and the next free register
index (`nir_local_reg_create` appends to the function's register list). -/
structure RegState where
  regs_table : List (Deref × Register)
  next_index : Nat
deriving DecidableEq

/-- The `array_size` computation inside `get_reg_for_deref`: walk the whole
chain and multiply, at every array node, by the element count of the array
being indexed (`glsl_get_length(nir_deref_instr_parent(d)->type)`, the stored
`parentLength`).  Struct nodes are walked through without contributing. -/
def chain_array_size : Deref → Nat
  | .var _ => 1
  | .array p _ len => chain_array_size p * len
  | .strct p _ => chain_array_size p

/-- `get_reg_for_deref`: look the chain up in the table (by `derefs_equal`);
on a miss, allocate a fresh register sized from the chain and insert it.
`none` models a failing assertion: the root variable has a constant
initializer (checked first, before any lookup), or, on the allocation path,
the leaf type is not a vector/scalar. -/
def get_reg_for_deref (deref : Deref) (s : RegState) :
    Option (Register × RegState) :=
  if (nir_deref_instr_get_variable deref).const_init then
    none
  else
    match s.regs_table.find? (fun e => derefs_equal e.1 deref) with
    | some e => some (e.2, s)
    | none =>
      let array_size := chain_array_size deref
      match derefType deref with
      | some (.vec n bsz) =>
        let reg : Register :=
          { index := s.next_index
            num_components := n
            num_array_elems := if array_size > 1 then array_size else 0
            bit_size := bsz }
        some (reg, { regs_table := (deref, reg) :: s.regs_table
                     next_index := s.next_index + 1 })
      | _ => none

/-- The register-source operand built by `get_deref_reg_src` (`nir_src` with
`is_ssa = false`): a register, an integer base offset, and an optional
dynamic-index SSA expression (`src.reg.indirect`). -/
structure RegSrc where
  reg : Register
  base_offset : Nat
  indirect : Option Expr
deriving DecidableEq

/-- State of the linearization loop in `get_deref_reg_src`: the accumulators
`base_offset`, `indirect` and `inner_array_size`, plus the SSA-arithmetic
instructions the builder has emitted so far (`nir_imm_int`, `nir_imul`,
`nir_iadd` create one instruction each, inserted at the cursor). -/
structure LinState where
  base_offset : Nat
  indirect : Option Expr
  inner_array_size : Nat
  emitted : List Expr
deriving DecidableEq

/-- The body of the linearization loop, for one array node carrying index
operand `idx` over an array of `len` elements.  A constant index with no
dynamic index yet is folded into `base_offset` at the current stride.
Otherwise the dynamic accumulator is either seeded with an immediate holding
the current `base_offset` (which is then reset to 0), or — when it already
exists — the C code asserts `base_offset == 0`, modeled as `none` when it
would fail; then `index * inner_array_size` is added onto the accumulator.
Finally `inner_array_size` is multiplied by `len`. -/
def lin_step (idx : Index) (len : Nat) (st : LinState) : Option LinState :=
  match idx, st.indirect with
  | .const v, none =>
    some { st with
           base_offset := st.base_offset + v * st.inner_array_size
           inner_array_size := st.inner_array_size * len }
  | idx, _ =>
    let seeded : Option (Expr × Nat × List Expr) :=
      match st.indirect with
      | some ind =>
        if st.base_offset = 0 then some (ind, st.base_offset, st.emitted)
        else none
      | none =>
        some (Expr.imm st.base_offset, 0,
              st.emitted ++ [Expr.imm st.base_offset])
    match seeded with
    | none => none
    | some (ind, base, em) =>
      let stride := Expr.imm st.inner_array_size
      let prod := Expr.imul idx.toExpr stride
      let ind' := Expr.iadd ind prod
      some { base_offset := base
             indirect := some ind'
             inner_array_size := st.inner_array_size * len
             emitted := em ++ [stride, prod, ind'] }

/-- The linearization loop of `get_deref_reg_src`: walk the chain from the
leaf toward the root and run `lin_step` at every array node; other nodes are
skipped. -/
def lin_walk : Deref → LinState → Option LinState
  | .var _, st => some st
  | .strct p _, st => lin_walk p st
  | .array p idx len, st =>
    match lin_step idx len st with
    | some st' => lin_walk p st'
    | none => none

/-- `get_deref_reg_src`: resolve the chain's register, then build the operand.
A register with `num_array_elems == 0` is returned as a direct reference
(offset 0, no indirect) unconditionally; otherwise the linearization loop
runs.  Besides the operand it returns the updated table state and the list of
SSA instructions the builder emitted. -/
def get_deref_reg_src (deref : Deref) (s : RegState) :
    Option (RegSrc × RegState × List Expr) :=
  match get_reg_for_deref deref s with
  | none => none
  | some (reg, s') =>
    if reg.num_array_elems = 0 then
      some ({ reg := reg, base_offset := 0, indirect := none }, s', [])
    else
      match lin_walk deref
          { base_offset := 0, indirect := none,
            inner_array_size := 1, emitted := [] } with
      | none => none
      | some st =>
        some ({ reg := reg, base_offset := st.base_offset,
                indirect := st.indirect }, s', st.emitted)

/-- The intrinsic instructions `lower_locals_to_regs_block` dispatches on.
`load_deref` reads through a chain into an SSA destination; `store_deref`
writes an SSA value through a chain under a write mask; `copy_deref` copies
between two chains.  `otherIntrin` stands for every other intrinsic. -/
inductive Intrin where
  | load_deref (deref : Deref) (num_components : Nat) (bitSize : Nat)
      (destSsa : Nat)
  | store_deref (deref : Deref) (value : Expr) (wrmask : Nat)
  | copy_deref (dst : Deref) (src : Deref)
  | otherIntrin (tag : Nat)
deriving DecidableEq

/-- Instructions of a block, as far as this pass distinguishes them:
intrinsics, the `imov` instructions the pass creates (from a register operand
into an SSA destination for loads, from an SSA value into a register
destination for stores), SSA-arithmetic instructions emitted while building a
dynamic index, and anything else (other ALU instructions, jumps, phis, ...),
which the pass never touches. -/
inductive Instr where
  | intrin (i : Intrin)
  | movFromReg (src : RegSrc) (write_mask : Nat) (destSsa : Nat)
  | movToReg (value : Expr) (write_mask : Nat) (dst : RegSrc)
  | ssaArith (e : Expr)
  | other (tag : Nat)
deriving DecidableEq

/-- One iteration of the `nir_foreach_instr_safe` loop in
`lower_locals_to_regs_block`: given an instruction, produce the instructions
standing in its place afterwards (builder insertions happen before the
intrinsic, which is then removed), the updated state and the progress flag.
`none` models hitting `unreachable` (a `copy_deref`, which must have been
lowered away before this pass) or a failing assertion inside the helpers.
Non-intrinsics and intrinsics whose deref is not `nir_var_local` are left
unmodified. -/
def lower_instr (s : RegState) : Instr → Option (List Instr × RegState × Bool)
  | .intrin (.load_deref d nc bsz dst) =>
    if derefMode d ≠ Mode.local then
      some ([.intrin (.load_deref d nc bsz dst)], s, false)
    else
      match get_deref_reg_src d s with
      | none => none
      | some (src, s', em) =>
        some (em.map Instr.ssaArith
                ++ [.movFromReg src (2 ^ nc - 1) dst], s', true)
  | .intrin (.store_deref d v wrmask) =>
    if derefMode d ≠ Mode.local then
      some ([.intrin (.store_deref d v wrmask)], s, false)
    else
      match get_deref_reg_src d s with
      | none => none
      | some (src, s', em) =>
        some (em.map Instr.ssaArith ++ [.movToReg v wrmask src], s', true)
  | .intrin (.copy_deref _ _) => none
  | i => some ([i], s, false)

/-- `lower_locals_to_regs_block`: fold `lower_instr` over the block's
instructions in order, threading the state and OR-ing the progress flags. -/
def lower_block (s : RegState) :
    List Instr → Option (List Instr × RegState × Bool)
  | [] => some ([], s, false)
  | i :: rest =>
    match lower_instr s i with
    | none => none
    | some (out, s', p) =>
      match lower_block s' rest with
      | none => none
      | some (outRest, s'', p') => some (out ++ outRest, s'', p || p')

/-- A function body as this pass sees it: the instruction lists of its blocks
(in `nir_foreach_block` order) and the CFG edge set (pairs of block indices),
which the pass never reads or writes. -/
structure FnImpl where
  blocks : List (List Instr)
  edges : List (Nat × Nat)
deriving DecidableEq

/-- The `nir_foreach_block` loop of `nir_lower_locals_to_regs_impl`: lower
every block, threading the single per-function state. -/
def lower_blocks (s : RegState) :
    List (List Instr) → Option (List (List Instr) × RegState × Bool)
  | [] => some ([], s, false)
  | b :: rest =>
    match lower_block s b with
    | none => none
    | some (b', s', p) =>
      match lower_blocks s' rest with
      | none => none
      | some (rest', s'', p') => some (b' :: rest', s'', p || p')

/-- `nir_lower_locals_to_regs_impl`: start from a fresh empty table and
register list position, lower all blocks, leave the edge set untouched
(the pass preserves block-index and dominance metadata), discard the table
and report progress. -/
def nir_lower_locals_to_regs_impl (impl : FnImpl) : Option (FnImpl × Bool) :=
  match lower_blocks { regs_table := [], next_index := 0 } impl.blocks with
  | none => none
  | some (bs, _, p) => some ({ blocks := bs, edges := impl.edges }, p)

/-! ### Canonical identity of a chain

`derefs_equal` compares two chains positionally, node by node.  To relate it
to the spec's canonical identity (root variable plus struct-field path), we
name the *skeleton* of a chain — its node kinds with struct field indices,
array indices erased — and show that for well-typed chains ending in a
non-array type, the skeleton is already determined by the root variable's
type and the struct-field path. -/

/-- One step of a chain skeleton: an array node (index erased) or a struct
node with its field index. -/
inductive SkelStep where
  | arr
  | fld (i : Nat)
deriving DecidableEq

/-- The skeleton of a chain, leaf to root. -/
def skeleton : Deref → List SkelStep
  | .var _ => []
  | .array p _ _ => .arr :: skeleton p
  | .strct p f => .fld f :: skeleton p

/-- The ordered struct-field path of a chain, leaf to root. -/
def structPath : Deref → List Nat
  | .var _ => []
  | .array p _ _ => structPath p
  | .strct p f => f :: structPath p

/-- One step of a chain read root-to-leaf. -/
inductive PathStep where
  | arr (idx : Index) (len : Nat)
  | fld (i : Nat)
deriving DecidableEq

/-- The chain as a root-to-leaf list of steps. -/
def pathOf : Deref → List PathStep
  | .var _ => []
  | .array p idx len => pathOf p ++ [.arr idx len]
  | .strct p f => pathOf p ++ [.fld f]

/-- Walk a type along a root-to-leaf step list. -/
def walkType : GlslType → List PathStep → Option GlslType
  | t, [] => some t
  | t, .arr _ len :: rest =>
    match t with
    | .array e l => if l = len then walkType e rest else none
    | _ => none
  | t, .fld f :: rest =>
    match t with
    | .strct fs =>
      match fs.get? f with
      | some tf => walkType tf rest
      | none => none
    | _ => none

/-- Whether a type is an array type. -/
def GlslType.isArray : GlslType → Bool
  | .array _ _ => true
  | _ => false

/-- Skeleton of a root-to-leaf step list (root-to-leaf order). -/
def skelOfPath : List PathStep → List SkelStep
  | [] => []
  | .arr _ _ :: r => .arr :: skelOfPath r
  | .fld f :: r => .fld f :: skelOfPath r

/-- Struct-field indices of a root-to-leaf step list (root-to-leaf order). -/
def fldsOfPath : List PathStep → List Nat
  | [] => []
  | .arr _ _ :: r => fldsOfPath r
  | .fld f :: r => f :: fldsOfPath r

theorem skelOfPath_append (p q : List PathStep) :
    skelOfPath (p ++ q) = skelOfPath p ++ skelOfPath q := by
  induction p with
  | nil => rfl
  | cons hd tl ih => cases hd <;> simp [skelOfPath, ih]

theorem fldsOfPath_append (p q : List PathStep) :
    fldsOfPath (p ++ q) = fldsOfPath p ++ fldsOfPath q := by
  induction p with
  | nil => rfl
  | cons hd tl ih => cases hd <;> simp [fldsOfPath, ih]

theorem skeleton_eq_path (d : Deref) :
    skeleton d = (skelOfPath (pathOf d)).reverse := by
  induction d with
  | var v => rfl
  | array p idx len ih =>
    simp [skeleton, pathOf, skelOfPath_append, skelOfPath, ih]
  | strct p f ih =>
    simp [skeleton, pathOf, skelOfPath_append, skelOfPath, ih]

theorem structPath_eq_path (d : Deref) :
    structPath d = (fldsOfPath (pathOf d)).reverse := by
  induction d with
  | var v => rfl
  | array p idx len ih =>
    simp [structPath, pathOf, fldsOfPath_append, fldsOfPath, ih]
  | strct p f ih =>
    simp [structPath, pathOf, fldsOfPath_append, fldsOfPath, ih]

theorem walkType_append (t : GlslType) (p q : List PathStep) :
    walkType t (p ++ q) = (walkType t p).bind (fun u => walkType u q) := by
  induction p generalizing t with
  | nil => simp [walkType]
  | cons hd tl ih =>
    cases hd with
    | arr idx len =>
      cases t with
      | array e l =>
        by_cases h : l = len <;> simp [walkType, h, ih]
      | vec n b => simp [walkType]
      | strct fs => simp [walkType]
    | fld f =>
      cases t with
      | strct fs =>
        cases hg : fs.get? f with
        | none => simp [walkType, hg]
        | some tf => simp [walkType, hg, ih]
      | vec n b => simp [walkType]
      | array e l => simp [walkType]

theorem derefType_eq_walk (d : Deref) :
    derefType d =
      walkType (nir_deref_instr_get_variable d).vtype (pathOf d) := by
  induction d with
  | var v => rfl
  | array p idx len ih =>
    simp only [derefType, pathOf, nir_deref_instr_get_variable,
      walkType_append, ih]
    cases walkType (nir_deref_instr_get_variable p).vtype (pathOf p) with
    | none => rfl
    | some t => cases t <;> simp [walkType]
  | strct p f ih =>
    simp only [derefType, pathOf, nir_deref_instr_get_variable,
      walkType_append, ih]
    cases walkType (nir_deref_instr_get_variable p).vtype (pathOf p) with
    | none => rfl
    | some t =>
      cases t with
      | strct fs => cases hg : fs.get? f <;> simp [walkType, hg]
      | vec n b => simp [walkType]
      | array e l => simp [walkType]

/-- For well-typed root-to-leaf step lists over one root type, both ending in
a non-array type, the struct-field indices determine the skeleton: at each
point the type dictates whether the next step must index an array or select a
struct field. -/
theorem skel_determined (p1 : List PathStep) :
    ∀ (p2 : List PathStep) (t t1 t2 : GlslType),
      walkType t p1 = some t1 → walkType t p2 = some t2 →
      t1.isArray = false → t2.isArray = false →
      fldsOfPath p1 = fldsOfPath p2 → skelOfPath p1 = skelOfPath p2 := by
  induction p1 with
  | nil =>
    intro p2 t t1 t2 h1 h2 ha1 ha2 hf
    cases p2 with
    | nil => rfl
    | cons hd tl =>
      cases hd with
      | arr idx len =>
        simp [walkType] at h1
        subst h1
        cases t with
        | array e l => simp [GlslType.isArray] at ha1
        | vec n b => simp [walkType] at h2
        | strct fs => simp [walkType] at h2
      | fld f => simp [fldsOfPath] at hf
  | cons hd tl ih =>
    intro p2 t t1 t2 h1 h2 ha1 ha2 hf
    cases hd with
    | arr idx len =>
      cases t with
      | vec n b => simp [walkType] at h1
      | strct fs => simp [walkType] at h1
      | array e l =>
        simp only [walkType] at h1
        by_cases hl : l = len
        · rw [if_pos hl] at h1
          cases p2 with
          | nil =>
            simp [walkType] at h2
            subst h2
            simp [GlslType.isArray] at ha2
          | cons hd2 tl2 =>
            cases hd2 with
            | arr idx2 len2 =>
              simp only [walkType] at h2
              by_cases hl2 : l = len2
              · rw [if_pos hl2] at h2
                simp only [fldsOfPath] at hf
                simp only [skelOfPath]
                exact congrArg _ (ih tl2 e t1 t2 h1 h2 ha1 ha2 hf)
              · rw [if_neg hl2] at h2; exact absurd h2 (by simp)
            | fld f2 => simp [walkType] at h2
        · rw [if_neg hl] at h1; exact absurd h1 (by simp)
    | fld f =>
      cases t with
      | vec n b => simp [walkType] at h1
      | array e l => simp [walkType] at h1
      | strct fs =>
        simp only [walkType] at h1
        cases hg : fs.get? f with
        | none => rw [hg] at h1; exact absurd h1 (by simp)
        | some tf =>
          rw [hg] at h1
          cases p2 with
          | nil => simp [fldsOfPath] at hf
          | cons hd2 tl2 =>
            cases hd2 with
            | arr idx2 len2 => simp [walkType] at h2
            | fld f2 =>
              simp only [walkType] at h2
              simp only [fldsOfPath] at hf
              injection hf with hff hf'
              subst hff
              rw [hg] at h2
              simp only [skelOfPath]
              exact congrArg _ (ih tl2 tf t1 t2 h1 h2 ha1 ha2 hf')

/-- `derefs_equal` holds exactly when the two chains have the same root
variable and the same skeleton. -/
theorem derefs_equal_iff (a : Deref) :
    ∀ b, derefs_equal a b = true ↔
      (nir_deref_instr_get_variable a = nir_deref_instr_get_variable b ∧
       skeleton a = skeleton b) := by
  induction a with
  | var va =>
    intro b
    cases b <;>
      simp [derefs_equal, skeleton, nir_deref_instr_get_variable]
  | array pa idxa lena ih =>
    intro b
    cases b <;>
      simp [derefs_equal, skeleton, nir_deref_instr_get_variable, ih]
  | strct pa fa ih =>
    intro b
    cases b with
    | var vb => simp [derefs_equal, skeleton]
    | array pb idxb lenb => simp [derefs_equal, skeleton]
    | strct pb fb =>
      simp only [derefs_equal, Bool.and_eq_true, beq_iff_eq, ih, skeleton,
        nir_deref_instr_get_variable, List.cons.injEq, SkelStep.fld.injEq]
      tauto

/-- The struct-field path is a function of the skeleton. -/
def skelFlds : List SkelStep → List Nat
  | [] => []
  | .arr :: r => skelFlds r
  | .fld f :: r => f :: skelFlds r

theorem structPath_eq_skel (d : Deref) :
    structPath d = skelFlds (skeleton d) := by
  induction d <;> simp [structPath, skeleton, skelFlds, *]

/-- For chains whose resolved types are not arrays (in particular for the
vector/scalar-leaf chains the pass handles), same root variable and same
struct-field path imply `derefs_equal`. -/
theorem derefs_equal_of_identity (a b : Deref) (ta tb : GlslType)
    (hta : derefType a = some ta) (htb : derefType b = some tb)
    (haa : ta.isArray = false) (hab : tb.isArray = false)
    (hroot : nir_deref_instr_get_variable a = nir_deref_instr_get_variable b)
    (hpath : structPath a = structPath b) :
    derefs_equal a b = true := by
  rw [derefs_equal_iff]
  refine ⟨hroot, ?_⟩
  rw [skeleton_eq_path, skeleton_eq_path]
  have hflds : fldsOfPath (pathOf a) = fldsOfPath (pathOf b) := by
    have := hpath
    rw [structPath_eq_path, structPath_eq_path] at this
    exact List.reverse_injective this
  have hwa : walkType (nir_deref_instr_get_variable a).vtype (pathOf a)
      = some ta := by rw [← derefType_eq_walk]; exact hta
  have hwb : walkType (nir_deref_instr_get_variable a).vtype (pathOf b)
      = some tb := by rw [hroot, ← derefType_eq_walk]; exact htb
  exact congrArg List.reverse
    (skel_determined (pathOf a) (pathOf b)
      (nir_deref_instr_get_variable a).vtype ta tb hwa hwb haa hab hflds)

/-! ### The register table -/

/-- Invariant of the lowering state: every register in the table was
allocated before `next_index`, no two entries' keys are `derefs_equal` (an
entry is only inserted after a failed lookup), and no two entries share a
register index (each insertion allocates a fresh register). -/
def RegStateWF (s : RegState) : Prop :=
  (∀ e ∈ s.regs_table, e.2.index < s.next_index) ∧
  s.regs_table.Pairwise
    (fun e1 e2 => derefs_equal e1.1 e2.1 = false ∧ e1.2.index ≠ e2.2.index)

/-- Characterization of `get_reg_for_deref`: a successful call means the root
variable has no constant initializer, and either the table lookup hit (state
unchanged, register taken from the entry) or it missed and a fresh register,
sized by `chain_array_size` and by the leaf vector type, was allocated and
inserted. -/
theorem get_reg_spec (d : Deref) (s : RegState) (r : Register) (s' : RegState)
    (h : get_reg_for_deref d s = some (r, s')) :
    (nir_deref_instr_get_variable d).const_init = false ∧
    ((∃ e, s.regs_table.find? (fun e => derefs_equal e.1 d) = some e ∧
           r = e.2 ∧ s' = s) ∨
     (s.regs_table.find? (fun e => derefs_equal e.1 d) = none ∧
      r.index = s.next_index ∧
      s'.regs_table = (d, r) :: s.regs_table ∧
      s'.next_index = s.next_index + 1 ∧
      (∃ n bsz, derefType d = some (.vec n bsz) ∧
        r.num_components = n ∧ r.bit_size = bsz) ∧
      r.num_array_elems =
        (if chain_array_size d > 1 then chain_array_size d else 0))) := by
  unfold get_reg_for_deref at h
  cases hc : (nir_deref_instr_get_variable d).const_init with
  | true => rw [hc] at h; simp at h
  | false =>
    rw [hc] at h
    simp only [Bool.false_eq_true, if_false] at h
    refine ⟨rfl, ?_⟩
    cases hf : s.regs_table.find? (fun e => derefs_equal e.1 d) with
    | some e =>
      rw [hf] at h
      injection h with h'
      injection h' with h1 h2
      exact Or.inl ⟨e, rfl, h1.symm, h2.symm⟩
    | none =>
      rw [hf] at h
      cases ht : derefType d with
      | none => rw [ht] at h; simp at h
      | some t =>
        rw [ht] at h
        cases t with
        | array e l => simp at h
        | strct fs => simp at h
        | vec n bsz =>
          simp only at h
          injection h with h'
          injection h' with h1 h2
          subst h1; subst h2
          exact Or.inr ⟨rfl, rfl, rfl, rfl, ⟨n, bsz, rfl, rfl, rfl⟩, rfl⟩

/-- `get_reg_for_deref` preserves the table invariant. -/
theorem get_reg_wf (d : Deref) (s : RegState) (r : Register) (s' : RegState)
    (hWF : RegStateWF s) (h : get_reg_for_deref d s = some (r, s')) :
    RegStateWF s' := by
  obtain ⟨-, hcase⟩ := get_reg_spec d s r s' h
  obtain ⟨hbound, hpw⟩ := hWF
  rcases hcase with ⟨e, hf, hr, rfl⟩ | ⟨hf, hidx, htab, hnext, -, -⟩
  · exact ⟨hbound, hpw⟩
  · constructor
    · intro e he
      rw [htab] at he
      rw [hnext]
      rcases List.mem_cons.mp he with rfl | he'
      · simp [hidx]
      · exact Nat.lt_succ_of_lt (hbound e he')
    · rw [htab]
      refine List.Pairwise.cons ?_ hpw
      intro e' he'
      have hne := List.find?_eq_none.mp hf e' he'
      constructor
      · have hne' : ¬ derefs_equal d e'.1 = true := by
          rw [derefs_equal_iff]
          rintro ⟨hroot, hskel⟩
          exact hne (by rw [derefs_equal_iff]; exact ⟨hroot.symm, hskel.symm⟩)
        simpa using hne'
      · have hb' := hbound e' he'
        show r.index ≠ e'.2.index
        omega

theorem derefs_equal_refl (a : Deref) : derefs_equal a a = true := by
  rw [derefs_equal_iff]; exact ⟨rfl, rfl⟩

theorem derefs_equal_symm {a b : Deref} (h : derefs_equal a b = true) :
    derefs_equal b a = true := by
  rw [derefs_equal_iff] at h ⊢
  exact ⟨h.1.symm, h.2.symm⟩

theorem derefs_equal_trans {a b c : Deref} (h1 : derefs_equal a b = true)
    (h2 : derefs_equal b c = true) : derefs_equal a c = true := by
  rw [derefs_equal_iff] at h1 h2 ⊢
  exact ⟨h1.1.trans h2.1, h1.2.trans h2.2⟩

theorem regWF_symm : Symmetric (fun (e1 e2 : Deref × Register) =>
    derefs_equal e1.1 e2.1 = false ∧ e1.2.index ≠ e2.2.index) := by
  rintro x y ⟨h1, h2⟩
  refine ⟨?_, h2.symm⟩
  cases hxy : derefs_equal y.1 x.1 with
  | false => rfl
  | true => exact absurd (derefs_equal_symm hxy) (by simp [h1])

/-- After a successful `get_reg_for_deref`, the resulting table holds an
entry whose key is `derefs_equal` to the queried chain and whose register is
the returned one. -/
theorem get_reg_entry (d : Deref) (s : RegState) (r : Register)
    (s' : RegState) (h : get_reg_for_deref d s = some (r, s')) :
    ∃ e ∈ s'.regs_table, derefs_equal e.1 d = true ∧ e.2 = r := by
  obtain ⟨-, hcase⟩ := get_reg_spec d s r s' h
  rcases hcase with ⟨e, hf, hr, rfl⟩ | ⟨hf, hidx, htab, hnext, -, -⟩
  · exact ⟨e, List.mem_of_find?_eq_some hf,
      by simpa using List.find?_some hf, hr.symm⟩
  · refine ⟨(d, r), ?_, derefs_equal_refl d, rfl⟩
    rw [htab]; exact List.mem_cons_self _ _

/-- Two consecutive lookups for `derefs_equal` chains return the same
register: the first call leaves (or creates) an entry for the class, and the
second finds exactly that entry, uniqueness coming from the table
invariant. -/
theorem get_reg_shared (a b : Deref) (s s1 s2 : RegState) (ra rb : Register)
    (hWF : RegStateWF s)
    (ha : get_reg_for_deref a s = some (ra, s1))
    (hb : get_reg_for_deref b s1 = some (rb, s2))
    (heq : derefs_equal a b = true) : ra = rb := by
  have hWF1 := get_reg_wf a s ra s1 hWF ha
  obtain ⟨e, hmem, hea, her⟩ := get_reg_entry a s ra s1 ha
  have heb : derefs_equal e.1 b = true := derefs_equal_trans hea heq
  obtain ⟨-, hcaseb⟩ := get_reg_spec b s1 rb s2 hb
  rcases hcaseb with ⟨e', hf', hr', rfl⟩ | ⟨hf', -, -, -, -, -⟩
  · have hmem' := List.mem_of_find?_eq_some hf'
    have hp' : derefs_equal e'.1 b = true := by
      simpa using List.find?_some hf'
    by_cases hee : e' = e
    · rw [hr', hee, her]
    · have hall := (hWF1.2).forall regWF_symm hmem' hmem hee
      have : derefs_equal e'.1 e.1 = true :=
        derefs_equal_trans hp' (derefs_equal_symm heb)
      rw [hall.1] at this
      exact absurd this (by simp)
  · have := List.find?_eq_none.mp hf' e hmem
    exact absurd heb (by simpa using this)

/-- Two consecutive lookups for non-`derefs_equal` chains return registers
with distinct indices (hence distinct registers). -/
theorem get_reg_separate (a b : Deref) (s s1 s2 : RegState)
    (ra rb : Register) (hWF : RegStateWF s)
    (ha : get_reg_for_deref a s = some (ra, s1))
    (hb : get_reg_for_deref b s1 = some (rb, s2))
    (hne : derefs_equal a b = false) : ra.index ≠ rb.index := by
  have hWF1 := get_reg_wf a s ra s1 hWF ha
  obtain ⟨-, hca⟩ := get_reg_spec a s ra s1 ha
  obtain ⟨-, hcb⟩ := get_reg_spec b s1 rb s2 hb
  rcases hca with ⟨e, hf, hr, rfl⟩ | ⟨hf, hidx, htab, hnext, -, -⟩
  · rcases hcb with ⟨e', hf', hr', rfl⟩ | ⟨hf', hidx', -, -, -, -⟩
    · -- both lookups hit entries of the unchanged table
      have hmem := List.mem_of_find?_eq_some hf
      have hmem' := List.mem_of_find?_eq_some hf'
      have hpa : derefs_equal e.1 a = true := by
        simpa using List.find?_some hf
      have hpb : derefs_equal e'.1 b = true := by
        simpa using List.find?_some hf'
      have hee : e ≠ e' := by
        rintro rfl
        have : derefs_equal a b = true :=
          derefs_equal_trans (derefs_equal_symm hpa) hpb
        rw [hne] at this
        exact absurd this (by simp)
      have hall := (hWF.2).forall regWF_symm hmem hmem' hee
      rw [hr, hr']
      exact hall.2
    · -- a hit an existing entry, b allocated a fresh register
      have hmem := List.mem_of_find?_eq_some hf
      have hb' := hWF.1 e hmem
      rw [hr, hidx']
      omega
  · rcases hcb with ⟨e', hf', hr', rfl⟩ | ⟨hf', hidx', -, -, -, -⟩
    · -- a allocated, b hit an entry of the updated table
      have hmem' := List.mem_of_find?_eq_some hf'
      have hpb : derefs_equal e'.1 b = true := by
        simpa using List.find?_some hf'
      rw [htab] at hmem'
      rcases List.mem_cons.mp hmem' with rfl | hold
      · exact absurd hpb (by simp [hne])
      · have hb' := hWF.1 e' hold
        rw [hr']
        omega
    · -- both allocated fresh registers
      rw [hidx, hidx', hnext]
      omega

/-! ### Claims -/

/-- Claim C1: for every pair of well-formed dereference chains within one
function's lowering, `get_reg_for_deref` returns the same register for both
chains if and only if they have the same root variable and the same ordered
sequence of struct-field indices, regardless of their array-index links —
same canonical identity yields one shared register, differing root variable
or struct-field path yields distinct registers. -/
theorem C1_register_sharing_iff_identity
    (a b : Deref) (s s1 s2 : RegState) (ra rb : Register)
    (na nb bsa bsb : Nat)
    (hWF : RegStateWF s)
    (hta : derefType a = some (.vec na bsa))
    (htb : derefType b = some (.vec nb bsb))
    (ha : get_reg_for_deref a s = some (ra, s1))
    (hb : get_reg_for_deref b s1 = some (rb, s2)) :
    ra = rb ↔
      (nir_deref_instr_get_variable a = nir_deref_instr_get_variable b ∧
       structPath a = structPath b) := by
  constructor
  · intro hr
    cases hde : derefs_equal a b with
    | false =>
      exact absurd (congrArg Register.index hr)
        (get_reg_separate a b s s1 s2 ra rb hWF ha hb hde)
    | true =>
      have h := (derefs_equal_iff a b).mp hde
      refine ⟨h.1, ?_⟩
      rw [structPath_eq_skel, structPath_eq_skel, h.2]
  · rintro ⟨hroot, hpath⟩
    exact get_reg_shared a b s s1 s2 ra rb hWF ha hb
      (derefs_equal_of_identity a b _ _ hta htb rfl rfl hroot hpath)

/-- A local `vec4[2]` array variable used by the concrete examples. -/
def exVar : Var :=
  { id := 0
    vtype := .array (.vec 4 32) 2
    mode := .local
    const_init := false }

/-- The chain `exVar[0]` (constant index). -/
def exChainA : Deref := .array (.var exVar) (.const 0) 2

/-- The chain `exVar[i]` (dynamic index). -/
def exChainB : Deref := .array (.var exVar) (.dyn (.ssaVar 5)) 2

/-- The register allocated for `exVar`'s chains. -/
def exReg : Register :=
  { index := 0, num_components := 4, num_array_elems := 2, bit_size := 32 }

/-- The state after the first lookup of `exChainA`. -/
def exState1 : RegState :=
  { regs_table := [(exChainA, exReg)], next_index := 1 }

/-- Witness for C1: the chains `exVar[0]` and `exVar[i]` share one register,
and their canonical identities agree. -/
theorem C1_witness :
    RegStateWF { regs_table := [], next_index := 0 } ∧
    derefType exChainA = some (.vec 4 32) ∧
    derefType exChainB = some (.vec 4 32) ∧
    get_reg_for_deref exChainA { regs_table := [], next_index := 0 } =
      some (exReg, exState1) ∧
    get_reg_for_deref exChainB exState1 = some (exReg, exState1) ∧
    (exReg = exReg ↔
      (nir_deref_instr_get_variable exChainA =
         nir_deref_instr_get_variable exChainB ∧
       structPath exChainA = structPath exChainB)) := by
  refine ⟨⟨by simp, by simp⟩, by decide, by decide, by decide, by decide, ?_⟩
  exact C1_register_sharing_iff_identity exChainA exChainB
    { regs_table := [], next_index := 0 } exState1 exState1 exReg exReg
    4 4 32 32 ⟨by simp, by simp⟩ (by decide) (by decide) (by decide)
    (by decide)

/-- A local `vec1[3][4]` array-of-arrays variable (outer size 3, inner
size 4). -/
def aoaVar : Var :=
  { id := 1
    vtype := .array (.array (.vec 1 32) 4) 3
    mode := .local
    const_init := false }

/-- The chain `aoaVar[i][2]`, `i` dynamic (the SSA value 7), `2` constant. -/
def aoaChain : Deref :=
  .array (.array (.var aoaVar) (.dyn (.ssaVar 7)) 3) (.const 2) 4

/-- The dynamic index expression built for `aoaVar[i][2]`: the constant
contribution 2 seeds the accumulator, then `i * 4` is added. -/
def aoaInd : Expr := .iadd (.imm 2) (.imul (.ssaVar 7) (.imm 4))

/-- Claim C2: for a local array-of-arrays `[3][4]` accessed at `[i][2]` with
`i` dynamic, `get_deref_reg_src` produces a register operand addressing
`i*4 + 2`: the constant 2 is folded at stride 1 into the base offset first,
then the dynamic index `i` is accumulated at stride 4 into the dynamic index
expression, with the prior base offset seeded into that expression and
`base_offset` reset to 0. -/
theorem C2_linearization_law :
    lin_step (.const 2) 4
        { base_offset := 0, indirect := none,
          inner_array_size := 1, emitted := [] } =
      some { base_offset := 2, indirect := none,
             inner_array_size := 4, emitted := [] } ∧
    get_deref_reg_src aoaChain { regs_table := [], next_index := 0 } =
      some ({ reg := { index := 0, num_components := 1,
                       num_array_elems := 12, bit_size := 32 }
              base_offset := 0
              indirect := some aoaInd },
            { regs_table :=
                [(aoaChain,
                  { index := 0, num_components := 1,
                    num_array_elems := 12, bit_size := 32 })]
              next_index := 1 },
            [.imm 2, .imm 4, .imul (.ssaVar 7) (.imm 4), aoaInd]) ∧
    ∀ env, evalExpr env aoaInd = env 7 * 4 + 2 := by
  refine ⟨by decide, by decide, ?_⟩
  intro env
  simp [aoaInd, evalExpr]
  omega

/-- Claim C3: for every dereference chain whose resolved register has
`num_array_elems` 0, `get_deref_reg_src` returns a register operand with base
offset 0 and no dynamic index, unconditionally — even when the chain contains
array-index links with non-constant indices. -/
theorem C3_scalar_degradation (d : Deref) (s s' : RegState) (rs : RegSrc)
    (em : List Expr)
    (h : get_deref_reg_src d s = some (rs, s', em))
    (h0 : rs.reg.num_array_elems = 0) :
    rs.base_offset = 0 ∧ rs.indirect = none := by
  unfold get_deref_reg_src at h
  cases hg : get_reg_for_deref d s with
  | none => rw [hg] at h; exact absurd h (by simp)
  | some pr =>
    obtain ⟨reg, s1⟩ := pr
    rw [hg] at h
    dsimp only at h
    by_cases hz : reg.num_array_elems = 0
    · rw [if_pos hz] at h
      injection h with h'
      injection h' with h1 h2
      subst h1
      exact ⟨rfl, rfl⟩
    · rw [if_neg hz] at h
      cases hw : lin_walk d
          { base_offset := 0, indirect := none,
            inner_array_size := 1, emitted := [] } with
      | none => rw [hw] at h; exact absurd h (by simp)
      | some st =>
        rw [hw] at h
        injection h with h'
        injection h' with h1 h2
        subst h1
        exact absurd h0 hz

/-- A local one-element array of `vec2`. -/
def oneVar : Var :=
  { id := 3
    vtype := .array (.vec 2 32) 1
    mode := .local
    const_init := false }

/-- The chain `oneVar[i]` with a dynamic index: an indirect access into a
one-element array. -/
def oneChain : Deref := .array (.var oneVar) (.dyn (.ssaVar 9)) 1

/-- Witness for C3: the indirect access `oneVar[i]` resolves to a register
with `num_array_elems` 0 and degrades to a direct operand. -/
theorem C3_witness :
    get_deref_reg_src oneChain { regs_table := [], next_index := 0 } =
      some ({ reg := { index := 0, num_components := 2,
                       num_array_elems := 0, bit_size := 32 }
              base_offset := 0
              indirect := none },
            { regs_table :=
                [(oneChain,
                  { index := 0, num_components := 2,
                    num_array_elems := 0, bit_size := 32 })]
              next_index := 1 },
            []) ∧
    ({ reg := { index := 0, num_components := 2,
                num_array_elems := 0, bit_size := 32 }
       base_offset := 0
       indirect := none } : RegSrc).base_offset = 0 ∧
    ({ reg := { index := 0, num_components := 2,
                num_array_elems := 0, bit_size := 32 }
       base_offset := 0
       indirect := none } : RegSrc).indirect = none :=
  ⟨by decide,
   C3_scalar_degradation oneChain { regs_table := [], next_index := 0 }
     { regs_table :=
         [(oneChain,
           { index := 0, num_components := 2,
             num_array_elems := 0, bit_size := 32 })]
       next_index := 1 }
     { reg := { index := 0, num_components := 2,
                num_array_elems := 0, bit_size := 32 }
       base_offset := 0
       indirect := none }
     [] (by decide) (by decide)⟩

/-- The declared element counts at the array-index links of a chain, leaf to
root. -/
def arrayLens : Deref → List Nat
  | .var _ => []
  | .array p _ len => len :: arrayLens p
  | .strct p _ => arrayLens p

/-- Whether a chain contains at least one array-index link. -/
def hasArrayLink : Deref → Bool
  | .var _ => false
  | .array _ _ _ => true
  | .strct p _ => hasArrayLink p

theorem chain_array_size_eq_prod (d : Deref) :
    chain_array_size d = (arrayLens d).prod := by
  induction d with
  | var v => rfl
  | array p idx len ih =>
    simp [chain_array_size, arrayLens, ih, Nat.mul_comm]
  | strct p f ih => simpa [chain_array_size, arrayLens] using ih

/-- Claim C4: when `get_reg_for_deref` allocates a new register for a chain,
its array size is computed by walking the entire chain and multiplying a
running product (initialized to 1) by the declared element count of the array
type at every array-index link — including dimensions above struct-field
links — and the recorded `num_array_elems` equals that product, except that a
product of 1 (no array links present) is recorded as 0 (scalar register). -/
theorem C4_array_size_product (d : Deref) (s : RegState) (n bsz : Nat)
    (hc : (nir_deref_instr_get_variable d).const_init = false)
    (hmiss : s.regs_table.find? (fun e => derefs_equal e.1 d) = none)
    (ht : derefType d = some (.vec n bsz)) :
    ∃ r s', get_reg_for_deref d s = some (r, s') ∧
      chain_array_size d = (arrayLens d).prod ∧
      (chain_array_size d = 1 → r.num_array_elems = 0) ∧
      (chain_array_size d ≠ 1 → r.num_array_elems = chain_array_size d) := by
  have hreg : get_reg_for_deref d s =
      some ({ index := s.next_index
              num_components := n
              num_array_elems :=
                if chain_array_size d > 1 then chain_array_size d else 0
              bit_size := bsz },
            { regs_table :=
                ((d, { index := s.next_index
                       num_components := n
                       num_array_elems :=
                         if chain_array_size d > 1 then chain_array_size d
                         else 0
                       bit_size := bsz }) :: s.regs_table)
              next_index := s.next_index + 1 }) := by
    unfold get_reg_for_deref
    rw [hc, hmiss, ht]
    rfl
  refine ⟨_, _, hreg, chain_array_size_eq_prod d, ?_, ?_⟩
  · intro h1
    simp [h1]
  · intro h1
    by_cases hgt : chain_array_size d > 1
    · simp [hgt]
    · have h0 : chain_array_size d = 0 := by omega
      simp [h0]

/-- A local variable holding a two-element array of structs whose first field
is a three-element array of scalars: `struct { float a[3]; float b; } v[2]`.
Its chains exercise array dimensions above a struct-field link. -/
def sVar : Var :=
  { id := 4
    vtype := .array (.strct (.cons (.array (.vec 1 32) 3)
                              (.cons (.vec 1 32) .nil))) 2
    mode := .local
    const_init := false }

/-- The chain `sVar[1].a[2]`. -/
def sChain : Deref :=
  .array (.strct (.array (.var sVar) (.const 1) 2) 0) (.const 2) 3

/-- Witness for C4: allocating the register for `sVar[1].a[2]` records
`num_array_elems` 6 = 2 * 3, the outer dimension above the struct-field link
included. -/
theorem C4_witness :
    (nir_deref_instr_get_variable sChain).const_init = false ∧
    derefType sChain = some (.vec 1 32) ∧
    chain_array_size sChain = 6 ∧
    (∃ r s', get_reg_for_deref sChain { regs_table := [], next_index := 0 } =
        some (r, s') ∧
      chain_array_size sChain = (arrayLens sChain).prod ∧
      (chain_array_size sChain = 1 → r.num_array_elems = 0) ∧
      (chain_array_size sChain ≠ 1 →
        r.num_array_elems = chain_array_size sChain)) :=
  ⟨by decide, by decide, by decide,
   C4_array_size_product sChain { regs_table := [], next_index := 0 } 1 32
     (by decide) (by decide) (by decide)⟩

/-- Claim C9: for a chain that does contain array-index links but whose array
dimension lengths multiply to exactly 1 (indexing into a one-element array),
the allocated register has `num_array_elems` 0 — the code records 0 for any
product not greater than 1, not only for chains with no array links — and
every access through such a chain, including an indirect one, degrades to a
direct access at base offset 0 with no dynamic index. -/
theorem C9_one_element_array (d : Deref) (s : RegState) (n bsz : Nat)
    (hc : (nir_deref_instr_get_variable d).const_init = false)
    (hmiss : s.regs_table.find? (fun e => derefs_equal e.1 d) = none)
    (ht : derefType d = some (.vec n bsz))
    (_hlinks : hasArrayLink d = true)
    (hone : chain_array_size d = 1) :
    ∃ r s', get_reg_for_deref d s = some (r, s') ∧
      r.num_array_elems = 0 ∧
      get_deref_reg_src d s =
        some ({ reg := r, base_offset := 0, indirect := none }, s', []) := by
  have hreg : get_reg_for_deref d s =
      some ({ index := s.next_index
              num_components := n
              num_array_elems :=
                if chain_array_size d > 1 then chain_array_size d else 0
              bit_size := bsz },
            { regs_table :=
                ((d, { index := s.next_index
                       num_components := n
                       num_array_elems :=
                         if chain_array_size d > 1 then chain_array_size d
                         else 0
                       bit_size := bsz }) :: s.regs_table)
              next_index := s.next_index + 1 }) := by
    unfold get_reg_for_deref
    rw [hc, hmiss, ht]
    rfl
  refine ⟨_, _, hreg, ?_, ?_⟩
  · simp [hone]
  · unfold get_deref_reg_src
    rw [hreg]
    simp [hone]

/-- Witness for C9: the indirect access `oneVar[i]` into a one-element array
allocates a scalar register (`num_array_elems` 0) and degrades to a direct
operand. -/
theorem C9_witness :
    (nir_deref_instr_get_variable oneChain).const_init = false ∧
    hasArrayLink oneChain = true ∧
    chain_array_size oneChain = 1 ∧
    (∃ r s',
      get_reg_for_deref oneChain { regs_table := [], next_index := 0 } =
        some (r, s') ∧
      r.num_array_elems = 0 ∧
      get_deref_reg_src oneChain { regs_table := [], next_index := 0 } =
        some ({ reg := r, base_offset := 0, indirect := none }, s', [])) :=
  ⟨by decide, by decide, by decide,
   C9_one_element_array oneChain { regs_table := [], next_index := 0 } 2 32
     (by decide) (by decide) (by decide) (by decide) (by decide)⟩

/-- Claim C10: every chain processed by `get_reg_for_deref` must root at a
local variable with no constant initializer: the function asserts that the
chain's root variable's `constant_initializer` is absent before any lookup or
register allocation — with an initializer present the call fails no matter
what the table holds. -/
theorem C10_const_init_precondition (d : Deref) (s : RegState)
    (h : (nir_deref_instr_get_variable d).const_init = true) :
    get_reg_for_deref d s = none := by
  unfold get_reg_for_deref
  rw [h]
  rfl

/-- A local variable carrying a constant initializer. -/
def initVar : Var :=
  { id := 5, vtype := .vec 1 32, mode := .local, const_init := true }

/-- One linearization step preserves the invariant "a dynamic index implies
base offset 0" and never fails under it: the constant branch leaves the
dynamic index absent, seeding resets the base offset to 0, and further
accumulation keeps a base offset that the invariant already forces to 0. -/
theorem lin_step_inv (idx : Index) (len : Nat) (st : LinState)
    (hinv : st.indirect.isSome = true → st.base_offset = 0) :
    ∃ st', lin_step idx len st = some st' ∧
      (st'.indirect.isSome = true → st'.base_offset = 0) := by
  obtain ⟨b, ind, inner, em⟩ := st
  cases ind with
  | none =>
    cases idx with
    | const v => exact ⟨_, rfl, by simp⟩
    | dyn e => exact ⟨_, rfl, fun _ => rfl⟩
  | some ind0 =>
    have hb : b = 0 := hinv (by simp)
    subst hb
    cases idx with
    | const v => exact ⟨_, rfl, fun _ => rfl⟩
    | dyn e => exact ⟨_, rfl, fun _ => rfl⟩

/-- Claim C6: throughout the leaf-to-root linearization walk, whenever a
dynamic index expression exists, the base offset is 0 at every array-index
link processed afterwards — constant contributions are folded into the
dynamic expression, never left as a separate nonzero base offset — and the
assertion guarding this invariant never fires: from any state satisfying the
invariant (in particular the initial base 0 / no dynamic index state of
`get_deref_reg_src`), the walk succeeds and re-establishes the invariant. -/
theorem C6_dynamic_base_zero (d : Deref) (st : LinState)
    (hinv : st.indirect.isSome = true → st.base_offset = 0) :
    ∃ st', lin_walk d st = some st' ∧
      (st'.indirect.isSome = true → st'.base_offset = 0) := by
  induction d generalizing st with
  | var v => exact ⟨st, rfl, hinv⟩
  | strct p f ih => exact ih st hinv
  | array p idx len ih =>
    obtain ⟨st1, hstep, hinv1⟩ := lin_step_inv idx len st hinv
    obtain ⟨st', hwalk, hinv'⟩ := ih st1 hinv1
    refine ⟨st', ?_, hinv'⟩
    unfold lin_walk
    rw [hstep]
    dsimp only
    exact hwalk

/-- Witness for C6: the walk of `aoaVar[i][2]` from the initial state
succeeds and ends with a dynamic index and base offset 0. -/
theorem C6_witness :
    ((({ base_offset := 0, indirect := none, inner_array_size := 1,
         emitted := [] } : LinState)).indirect.isSome = true →
      (({ base_offset := 0, indirect := none, inner_array_size := 1,
          emitted := [] } : LinState)).base_offset = 0) ∧
    (∃ st', lin_walk aoaChain
        { base_offset := 0, indirect := none, inner_array_size := 1,
          emitted := [] } = some st' ∧
      (st'.indirect.isSome = true → st'.base_offset = 0)) :=
  ⟨by decide,
   C6_dynamic_base_zero aoaChain
     { base_offset := 0, indirect := none, inner_array_size := 1,
       emitted := [] } (by decide)⟩

/-- Claim C7: encountering a copy instruction between two local dereference
chains during block rewriting is a fatal invariant violation: wherever it
sits in the block, the rewrite aborts (the C `unreachable`) rather than
rewriting, skipping, or recovering. -/
theorem C7_copy_is_fatal (s : RegState) (pre post : List Instr)
    (d1 d2 : Deref)
    (_h1 : derefMode d1 = Mode.local) (_h2 : derefMode d2 = Mode.local) :
    lower_block s
      (pre ++ Instr.intrin (Intrin.copy_deref d1 d2) :: post) = none := by
  induction pre generalizing s with
  | nil => rfl
  | cons i rest ih =>
    rw [List.cons_append]
    unfold lower_block
    cases lower_instr s i with
    | none => rfl
    | some t =>
      obtain ⟨out, s', p⟩ := t
      dsimp only
      rw [ih s']

/-- Witness for C7: a block holding a local-to-local copy between two chains
of `exVar` aborts the rewrite. -/
theorem C7_witness :
    derefMode exChainA = Mode.local ∧
    derefMode exChainB = Mode.local ∧
    lower_block { regs_table := [], next_index := 0 }
      ([Instr.other 0] ++
        Instr.intrin (Intrin.copy_deref exChainA exChainB) ::
          [Instr.other 1]) = none :=
  ⟨by decide, by decide,
   C7_copy_is_fatal { regs_table := [], next_index := 0 }
     [Instr.other 0] [Instr.other 1] exChainA exChainB
     (by decide) (by decide)⟩

/-- Instructions the pass still considers memory traffic on local storage:
local-chain loads and stores (which it would rewrite) and copies (which make
it abort). -/
def isLocalMemAccess : Instr → Bool
  | .intrin (.load_deref d _ _ _) => derefMode d == Mode.local
  | .intrin (.store_deref d _ _) => derefMode d == Mode.local
  | .intrin (.copy_deref _ _) => true
  | _ => false

/-- An instruction that is not a local memory access passes through
`lower_instr` unchanged, with no state change and no progress. -/
theorem lower_instr_untouched (t : RegState) (i : Instr)
    (hnl : isLocalMemAccess i = false) :
    lower_instr t i = some ([i], t, false) := by
  cases i with
  | intrin intr =>
    cases intr with
    | load_deref d nc bsz dst =>
      have hm : derefMode d ≠ Mode.local := by
        simpa [isLocalMemAccess] using hnl
      unfold lower_instr
      dsimp only
      rw [if_pos hm]
    | store_deref d v w =>
      have hm : derefMode d ≠ Mode.local := by
        simpa [isLocalMemAccess] using hnl
      unfold lower_instr
      dsimp only
      rw [if_pos hm]
    | copy_deref d1 d2 => simp [isLocalMemAccess] at hnl
    | otherIntrin tag => rfl
  | movFromReg src w dst => rfl
  | movToReg v w dst => rfl
  | ssaArith e => rfl
  | other tag => rfl

/-- Everything `lower_instr` leaves behind — pass-through instructions,
emitted index arithmetic and the created moves — is free of local memory
accesses. -/
theorem lower_instr_output_clean (s : RegState) (i : Instr)
    (out : List Instr) (s' : RegState) (p : Bool)
    (h : lower_instr s i = some (out, s', p)) :
    ∀ j ∈ out, isLocalMemAccess j = false := by
  cases i with
  | intrin intr =>
    cases intr with
    | load_deref d nc bsz dst =>
      by_cases hm : derefMode d = Mode.local
      · unfold lower_instr at h
        dsimp only at h
        rw [if_neg (not_not_intro hm)] at h
        cases hg : get_deref_reg_src d s with
        | none => rw [hg] at h; exact absurd h (by simp)
        | some tr =>
          obtain ⟨src, s2, em⟩ := tr
          rw [hg] at h
          injection h with h'
          injection h' with h1 h2
          subst h1
          intro j hj
          rcases List.mem_append.mp hj with hj1 | hj2
          · obtain ⟨e, -, rfl⟩ := List.mem_map.mp hj1
            rfl
          · rw [List.mem_singleton.mp hj2]
            rfl
      · unfold lower_instr at h
        dsimp only at h
        rw [if_pos hm] at h
        injection h with h'
        injection h' with h1 h2
        subst h1
        intro j hj
        rw [List.mem_singleton.mp hj]
        simpa [isLocalMemAccess] using hm
    | store_deref d v w =>
      by_cases hm : derefMode d = Mode.local
      · unfold lower_instr at h
        dsimp only at h
        rw [if_neg (not_not_intro hm)] at h
        cases hg : get_deref_reg_src d s with
        | none => rw [hg] at h; exact absurd h (by simp)
        | some tr =>
          obtain ⟨src, s2, em⟩ := tr
          rw [hg] at h
          injection h with h'
          injection h' with h1 h2
          subst h1
          intro j hj
          rcases List.mem_append.mp hj with hj1 | hj2
          · obtain ⟨e, -, rfl⟩ := List.mem_map.mp hj1
            rfl
          · rw [List.mem_singleton.mp hj2]
            rfl
      · unfold lower_instr at h
        dsimp only at h
        rw [if_pos hm] at h
        injection h with h'
        injection h' with h1 h2
        subst h1
        intro j hj
        rw [List.mem_singleton.mp hj]
        simpa [isLocalMemAccess] using hm
    | copy_deref d1 d2 => exact absurd h (by simp [lower_instr])
    | otherIntrin tag =>
      injection h with h'
      injection h' with h1 h2
      subst h1
      intro j hj
      rw [List.mem_singleton.mp hj]
      rfl
  | movFromReg src w dst =>
    injection h with h'
    injection h' with h1 h2
    subst h1
    intro j hj
    rw [List.mem_singleton.mp hj]
    rfl
  | movToReg v w dst =>
    injection h with h'
    injection h' with h1 h2
    subst h1
    intro j hj
    rw [List.mem_singleton.mp hj]
    rfl
  | ssaArith e =>
    injection h with h'
    injection h' with h1 h2
    subst h1
    intro j hj
    rw [List.mem_singleton.mp hj]
    rfl
  | other tag =>
    injection h with h'
    injection h' with h1 h2
    subst h1
    intro j hj
    rw [List.mem_singleton.mp hj]
    rfl

/-- A block without local memory accesses passes through `lower_block`
unchanged: no instruction is rewritten and no progress is reported. -/
theorem lower_block_of_clean (t : RegState) (xs : List Instr)
    (hclean : ∀ j ∈ xs, isLocalMemAccess j = false) :
    lower_block t xs = some (xs, t, false) := by
  induction xs generalizing t with
  | nil => rfl
  | cons i rest ih =>
    unfold lower_block
    rw [lower_instr_untouched t i (hclean i (List.mem_cons_self i rest))]
    dsimp only
    rw [ih t (fun j hj => hclean j (List.mem_cons_of_mem i hj))]
    simp

/-- The output of `lower_block` holds no local memory access. -/
theorem lower_block_output_clean (s : RegState) (xs : List Instr) :
    ∀ (ys : List Instr) (s' : RegState) (p : Bool),
      lower_block s xs = some (ys, s', p) →
      ∀ j ∈ ys, isLocalMemAccess j = false := by
  induction xs generalizing s with
  | nil =>
    intro ys s' p h
    injection h with h'
    injection h' with h1 h2
    subst h1
    intro j hj
    exact absurd hj (List.not_mem_nil j)
  | cons i rest ih =>
    intro ys s' p h
    unfold lower_block at h
    cases hi : lower_instr s i with
    | none => rw [hi] at h; exact absurd h (by simp)
    | some t1 =>
      obtain ⟨out, s1, p1⟩ := t1
      rw [hi] at h
      dsimp only at h
      cases hr : lower_block s1 rest with
      | none => rw [hr] at h; exact absurd h (by simp)
      | some t2 =>
        obtain ⟨outR, s2, p2⟩ := t2
        rw [hr] at h
        injection h with h'
        injection h' with h1 h2
        subst h1
        intro j hj
        rcases List.mem_append.mp hj with hj1 | hj2
        · exact lower_instr_output_clean s i out s1 p1 hi j hj1
        · exact ih s1 outR s2 p2 hr j hj2

/-- Clean blocks pass through `lower_blocks` unchanged. -/
theorem lower_blocks_of_clean (t : RegState) (bs : List (List Instr))
    (hclean : ∀ b ∈ bs, ∀ j ∈ b, isLocalMemAccess j = false) :
    lower_blocks t bs = some (bs, t, false) := by
  induction bs generalizing t with
  | nil => rfl
  | cons b rest ih =>
    unfold lower_blocks
    rw [lower_block_of_clean t b (hclean b (List.mem_cons_self b rest))]
    dsimp only
    rw [ih t (fun b' hb' => hclean b' (List.mem_cons_of_mem b hb'))]
    simp

/-- The output blocks of `lower_blocks` hold no local memory access, and
there are as many of them as input blocks. -/
theorem lower_blocks_output (s : RegState) (bs : List (List Instr)) :
    ∀ (bs' : List (List Instr)) (s' : RegState) (p : Bool),
      lower_blocks s bs = some (bs', s', p) →
      bs'.length = bs.length ∧
      ∀ b ∈ bs', ∀ j ∈ b, isLocalMemAccess j = false := by
  induction bs generalizing s with
  | nil =>
    intro bs' s' p h
    injection h with h'
    injection h' with h1 h2
    subst h1
    exact ⟨rfl, fun b hb => absurd hb (List.not_mem_nil b)⟩
  | cons b rest ih =>
    intro bs' s' p h
    unfold lower_blocks at h
    cases hb : lower_block s b with
    | none => rw [hb] at h; exact absurd h (by simp)
    | some t1 =>
      obtain ⟨b1, s1, p1⟩ := t1
      rw [hb] at h
      dsimp only at h
      cases hr : lower_blocks s1 rest with
      | none => rw [hr] at h; exact absurd h (by simp)
      | some t2 =>
        obtain ⟨rest1, s2, p2⟩ := t2
        rw [hr] at h
        injection h with h'
        injection h' with h1 h2
        subst h1
        obtain ⟨hlen, hclean⟩ := ih s1 rest1 s2 p2 hr
        refine ⟨by simp [hlen], ?_⟩
        intro bb hbb j hj
        rcases List.mem_cons.mp hbb with rfl | hbb'
        · exact lower_block_output_clean s b bb s1 p1 hb j hj
        · exact hclean bb hbb' j hj

/-- Claim C5: applying the pass a second time to a function already lowered
once performs no additional rewrite and returns progress `false`: after one
application no load or store instruction addressing local storage remains in
any block, so the second application finds nothing to rewrite and returns the
function unchanged. -/
theorem C5_idempotence (impl out : FnImpl) (p : Bool)
    (h : nir_lower_locals_to_regs_impl impl = some (out, p)) :
    (∀ b ∈ out.blocks, ∀ j ∈ b, isLocalMemAccess j = false) ∧
    nir_lower_locals_to_regs_impl out = some (out, false) := by
  unfold nir_lower_locals_to_regs_impl at h
  cases hl : lower_blocks { regs_table := [], next_index := 0 }
      impl.blocks with
  | none => rw [hl] at h; exact absurd h (by simp)
  | some t =>
    obtain ⟨bs, sf, pf⟩ := t
    rw [hl] at h
    injection h with h'
    injection h' with h1 h2
    obtain ⟨-, hclean⟩ :=
      lower_blocks_output { regs_table := [], next_index := 0 }
        impl.blocks bs sf pf hl
    have hbs : out.blocks = bs := by rw [← h1]
    have hclean' : ∀ b ∈ out.blocks, ∀ j ∈ b, isLocalMemAccess j = false :=
      by rw [hbs]; exact hclean
    refine ⟨hclean', ?_⟩
    unfold nir_lower_locals_to_regs_impl
    rw [lower_blocks_of_clean { regs_table := [], next_index := 0 }
      out.blocks hclean']

/-- Claim C8: running the pass leaves the control-flow-graph shape unchanged:
the block count and the edge set are identical before and after — the pass
only rewrites instructions inside blocks, never adds, removes or re-links
blocks. -/
theorem C8_cfg_preserved (impl out : FnImpl) (p : Bool)
    (h : nir_lower_locals_to_regs_impl impl = some (out, p)) :
    out.blocks.length = impl.blocks.length ∧ out.edges = impl.edges := by
  unfold nir_lower_locals_to_regs_impl at h
  cases hl : lower_blocks { regs_table := [], next_index := 0 }
      impl.blocks with
  | none => rw [hl] at h; exact absurd h (by simp)
  | some t =>
    obtain ⟨bs, sf, pf⟩ := t
    rw [hl] at h
    injection h with h'
    injection h' with h1 h2
    obtain ⟨hlen, -⟩ :=
      lower_blocks_output { regs_table := [], next_index := 0 }
        impl.blocks bs sf pf hl
    constructor
    · rw [← h1]
      exact hlen
    · rw [← h1]

/-- A two-block function with one local load, a CFG edge between the blocks,
and an unrelated instruction. -/
def exImpl : FnImpl :=
  { blocks := [[.intrin (.load_deref exChainA 4 32 10)], [.other 3]]
    edges := [(0, 1)] }

/-- `exImpl` after one application of the pass: the load became a register
move. -/
def exImplOut : FnImpl :=
  { blocks :=
      [[.movFromReg { reg := exReg, base_offset := 0, indirect := none }
          15 10],
       [.other 3]]
    edges := [(0, 1)] }

/-- Witness for C5: lowering `exImpl` rewrites its load (progress), and a
second application returns the lowered function unchanged with progress
`false`. -/
theorem C5_witness :
    nir_lower_locals_to_regs_impl exImpl = some (exImplOut, true) ∧
    nir_lower_locals_to_regs_impl exImplOut = some (exImplOut, false) :=
  ⟨by decide, (C5_idempotence exImpl exImplOut true (by decide)).2⟩

/-- Witness for C8: lowering `exImpl` keeps its two blocks and its edge
set. -/
theorem C8_witness :
    nir_lower_locals_to_regs_impl exImpl = some (exImplOut, true) ∧
    exImplOut.blocks.length = exImpl.blocks.length ∧
    exImplOut.edges = exImpl.edges :=
  ⟨by decide, C8_cfg_preserved exImpl exImplOut true (by decide)⟩

/-- Witness for C10: looking up a chain rooted at `initVar` fails, even on a
table that already holds an entry for it. -/
theorem C10_witness :
    (nir_deref_instr_get_variable (.var initVar)).const_init = true ∧
    get_reg_for_deref (.var initVar)
      { regs_table := [(.var initVar, exReg)], next_index := 1 } = none :=
  ⟨by decide,
   C10_const_init_precondition (.var initVar)
     { regs_table := [(.var initVar, exReg)], next_index := 1 } (by decide)⟩

end NirLowerLocals
